import Mathlib

/-!
# Ticker-Sorter: shallow embedding and verification

A shallow embedding of the core logic of the Ticker-Sorter repository
(`src/marble/`): the per-symbol metrics orchestrator (`polygon_client.py`),
the market-cap universe reconciler (`filter_tickers_async.py`), the
timeframe price-change fetcher (`timeframe.py`), the dashboard write path
(`dashboard.py`), and the MongoDB persistence operations they use
(`update_one` with `$set`/`$setOnInsert`/`upsert`, `delete_many` with
`$nin`).

Network sub-fetches are modelled by explicit environments: each outbound
call's outcome (success payload, or a raised transport/status error) is a
parameter, and the embedded functions are the code's pure control flow over
those outcomes.  Python numbers are modelled by `ℚ`; "None"/missing JSON
fields by `Option`; a raised exception by an explicit `fail` constructor,
so a function whose Lean type returns a plain value (no `Except`) provably
never propagates an exception.  MongoDB documents are finite partial maps
from field names to values, and the `tickers` collection is a partial map
from the unique `ticker` key to documents (the code creates a unique index
on `ticker`).
-/

namespace TickerSorter

/-- A BSON-ish field value: number, string, timestamp, or null (Python
`None` stored by `$set`). Timestamps are abstract ticks. -/
inductive Val : Type
  | num (q : ℚ)
  | str (s : String)
  | time (t : ℕ)
  | null
  deriving DecidableEq

/-- A document: a partial map from field names to values. -/
def Doc : Type := String → Option Val

/-- The field list of a `$set` / `$setOnInsert` clause, in source order. -/
def Fields : Type := List (String × Val)

/-- Look a field name up in a `$set`-style field list (first match wins;
the call sites never repeat a name). -/
def findField (k : String) : Fields → Option Val
  | [] => none
  | (k', v) :: rest => if k' = k then some v else findField k rest

/-- MongoDB `$set` semantics: fields named in `fs` get their new value,
every other field of the document is untouched. -/
def setMerge (fs : Fields) (d : Doc) : Doc :=
  fun k => match findField k fs with
    | some v => some v
    | none => d k

/-- The `marble.tickers` collection, keyed by the unique `ticker` index. -/
def Store : Type := String → Option Doc

/-- The empty collection. -/
def emptyStore : Store := fun _ => none

/-- Embeds `collection.update_one({"ticker": t}, {"$set": setF, "$setOnInsert": soiF},
upsert=...)`.  On a match, `$set` merges into the existing document.  On a
miss with `upsert=True`, MongoDB inserts the document built from the
equality filter (`ticker = t`), the `$setOnInsert` fields and the `$set`
fields; with `upsert=False` a miss is a no-op. -/
def updateOneTicker (upsert : Bool) (t : String) ( setF soiF : Fields) (st : Store) :
    Store :=
  fun k =>
    if k = t then
      match st t with
      | some d => some (setMerge setF d)
      | none =>
        if upsert then
          some (setMerge setF (setMerge soiF
            (fun f => if f = "ticker" then some (Val.str t) else none)))
        else none
    else st k

/-- Embeds `collection.delete_many({"ticker": {"$nin": keys}})`: every document
whose ticker is not in `keys` is removed. -/
def deleteNotIn (keys : List String) (st : Store) : Store :=
  fun k => if k ∈ keys then st k else none

/-- The set of persisted symbols. -/
def persistedKeys (st : Store) (k : String) : Prop := st k ≠ none

/-! ## Python rounding, `round(x, d)`

CPython's `round` on numbers rounds half to even ("banker's rounding").
Modelled exactly on `ℚ`. -/

/-- Round a rational to the nearest integer, ties to even. -/
def roundHalfEven (x : ℚ) : ℤ :=
  let n := ⌊x⌋
  let r := x - n
  if r < 1/2 then n
  else if 1/2 < r then n + 1
  else if n % 2 = 0 then n else n + 1

/-- Python `round(x, d)`: round to `d` decimal places, half to even. -/
def roundTo (d : ℕ) (x : ℚ) : ℚ :=
  (roundHalfEven (x * 10 ^ d) : ℚ) / 10 ^ d

example : roundTo 2 10 = 10 := by norm_num [roundTo, roundHalfEven]
example : roundTo 2 (1/3 * 100) = 3333/100 := by norm_num [roundTo, roundHalfEven]
example : roundTo 4 (1/3) = 3333/10000 := by norm_num [roundTo, roundHalfEven]

/-! ## Embedding of `polygon_client.fetch_metrics`

The three sub-fetches (reference profile, quarterly financials, open-close)
are modelled by an environment; `Sub.fail` is a raised exception during
that step (transport error, or `raise_for_status` on a non-2xx response).
The open-close request has no `raise_for_status`: only its transport
failure raises, and its `ok` payload is the `close` field when the status
was 200 (`none` both for a non-200 status and for a missing field). -/

/-- Outcome of one awaited sub-fetch: a payload, or a raised exception. -/
inductive Sub (α : Type) : Type
  | ok (payload : α)
  | fail
  deriving DecidableEq

/-- One quarterly report, reduced to the three values the code reads out of
`financials.income_statement` (`none`: the nested field is missing or not a
number — the code guards with `isinstance(..., (int, float))`). -/
structure FinReport where
  netIncome : Option ℚ
  revenue : Option ℚ
  dilutedEps : Option ℚ
  deriving DecidableEq

/-- The outcomes of the three sub-fetches `fetch_metrics` awaits for one
symbol. -/
structure PolyEnv where
  ref : Sub (Option String)
  fin : Sub (List FinReport)
  oc : Sub (Option ℚ)
  deriving DecidableEq

/-- Computes `eps_ttm`: the diluted EPS values present across the (up to 4) reports,
summed and rounded to 4 places; `None` when no report has one. -/
def epsTTM (reports : List FinReport) : Option ℚ :=
  let l := reports.filterMap FinReport.dilutedEps
  if l.isEmpty then none else some (roundTo 4 l.sum)

/-- Computes `out["net_profit_margin"]`: `round(net_income / revenue, 4)` when both
are numbers and `revenue` is truthy (nonzero), else `None`. -/
def netProfitMargin (ni rev : Option ℚ) : Option ℚ :=
  match ni, rev with
  | some n, some r => if r = 0 then none else some (roundTo 4 (n / r))
  | _, _ => none

/-- Computes `out["pe_ratio"]`: `round(close_price / eps_ttm, 2)` when both are
numbers and `eps_ttm` is truthy (nonzero), else `None`. -/
def peRatio (close eps : Option ℚ) : Option ℚ :=
  match close, eps with
  | some c, some e => if e = 0 then none else some (roundTo 2 (c / e))
  | _, _ => none

/-- A Python value that may be `None`, as stored into the `out` dict. -/
def optNum : Option ℚ → Val
  | some q => Val.num q
  | none => Val.null

/-- A Python string that may be `None`. -/
def optStr : Option String → Val
  | some s => Val.str s
  | none => Val.null

/-- Embeds `polygon_client.fetch_metrics`: builds the `out` dict field by field;
the single `except` around the whole body discards `out` and returns
`None` as soon as any sub-fetch raises. -/
def fetch_metrics (ticker : String) (now : ℕ) (env : PolyEnv) : Option Fields :=
  match env.ref, env.fin, env.oc with
  | Sub.ok ind, Sub.ok reports, Sub.ok close? =>
    let ni := reports.head?.bind FinReport.netIncome
    let rev := reports.head?.bind FinReport.revenue
    let eps := epsTTM reports
    some [("ticker", Val.str ticker), ("metrics_updated_at", Val.time now),
          ("industry", optStr ind), ("eps", optNum eps),
          ("net_income_quarterly", optNum ni), ("revenue_quarterly", optNum rev),
          ("net_profit_margin", optNum (netProfitMargin ni rev)),
          ("close_price", optNum close?),
          ("pe_ratio", optNum (peRatio close? eps))]
  | _, _, _ => none

/-- Embeds `polygon_client.process_all_tickers`'s `worker` for one symbol: fetch,
then upsert `$set: data, $setOnInsert: {created_at: ...}` when a dict came
back, skip the symbol when `fetch_metrics` returned `None`. -/
def worker (sym : String) (now created : ℕ) (env : PolyEnv) (st : Store) : Store :=
  match fetch_metrics sym now env with
  | some data => updateOneTicker true sym data [("created_at", Val.time created)] st
  | none => st

/-! ## Embedding of `filter_tickers_async`: market-cap filter and Mongo sync -/

/-- Embeds `filter_by_market_cap_parallel`, as the mapping it computes: each
candidate's market cap is fetched (`none`: the lookup failed or the field
was absent), and the symbol passes iff `cap and cap >= threshold` — cap
present, truthy (nonzero), and at least the threshold.  The concurrent
tasks write disjoint dict keys, so the resulting key-value set is
order-independent. -/
def filter_by_market_cap_parallel (threshold : ℚ)
    (fetched : List (String × Option ℚ)) : List (String × ℚ) :=
  fetched.filterMap fun p =>
    match p.2 with
    | some cap => if cap ≠ 0 ∧ threshold ≤ cap then some (p.1, cap) else none
    | none => none

/-- One upsert of `sync_to_mongo`: `$set {ticker, market_cap,
universe_updated_at}`, `$setOnInsert {created_at}`, `upsert=True`. -/
def upsertQualified (now : ℕ) (st : Store) (p : String × ℚ) : Store :=
  updateOneTicker true p.1
    [("ticker", Val.str p.1), ("market_cap", Val.num p.2),
     ("universe_updated_at", Val.time now)]
    [("created_at", Val.time now)] st

/-- Embeds `sync_to_mongo`: upsert every qualified symbol, then
`delete_many({"ticker": {"$nin": qualified.keys()}})`. -/
def sync_to_mongo (qualified : List (String × ℚ)) (now : ℕ) (st : Store) : Store :=
  deleteNotIn (qualified.map Prod.fst) (qualified.foldl (upsertQualified now) st)

/-! ## Embedding of `timeframe.py` -/

/-- The dict `fetch_stock_metrics` returns for one symbol. -/
structure TFResult where
  ticker : String
  stock_change_pct : Option ℚ
  volume_custom : Option ℚ
  deriving DecidableEq

/-- Embeds `timeframe.fetch_stock_metrics` for one symbol, given the values its
three sub-calls produced.  `get_close_price` and `get_volume_sum` each
swallow their own errors and return `None`, so the only exception inside
the `try` is the deliberate `raise Exception("Missing price")` when either
endpoint price is falsy (`None` or `0`); the `except` then returns the
all-null dict. -/
def fetch_stock_metrics (t : String) (start_price end_price volume : Option ℚ) :
    TFResult :=
  match start_price, end_price with
  | some s, some e =>
    if s = 0 ∨ e = 0 then ⟨t, none, none⟩
    else ⟨t, some (roundTo 2 ((e - s) / s * 100)), volume⟩
  | _, _ => ⟨t, none, none⟩

/-- What the network did for one symbol in a timeframe batch: `err` — its
outbound calls transport-failed (each `get_*` helper catches that and
returns `None`); `ok` — the fetched start price, end price and summed
volume, each possibly absent. -/
inductive TFFetch : Type
  | err
  | ok (start_price end_price volume : Option ℚ)
  deriving DecidableEq

/-- Run `fetch_stock_metrics` for one symbol under its network outcome. -/
def runFetch (t : String) : TFFetch → TFResult
  | TFFetch.err => fetch_stock_metrics t none none none
  | TFFetch.ok s e v => fetch_stock_metrics t s e v

/-- Embeds `timeframe.main`: one `fetch_stock_metrics` task per input ticker,
`asyncio.gather` collecting all of them in task order. -/
def timeframe_main (tickers : List String) (env : String → TFFetch) :
    List TFResult :=
  tickers.map fun t => runFetch t (env t)

/-- The dashboard's save loop body for one result dict:
`collection.update_one({"ticker": m["ticker"]}, {"$set": {...}})` —
note: no `upsert=True`. -/
def dashboard_update (m : TFResult) (st : Store) : Store :=
  updateOneTicker false m.ticker
    [("stock_change_pct", optNum m.stock_change_pct),
     ("volume_custom", optNum m.volume_custom)]
    [] st

/-! ## Semaphore-bounded batch (`timeframe.main` + `fetch_stock_metrics`)

The cooperative concurrency of one timeframe batch as a transition system.
Each task is in one of five phases: `pending` (awaiting the semaphore);
`prices2` (permit held, the two `get_close_price` calls launched together
by `asyncio.gather` both in flight); `prices1` (one endpoint price still in
flight); `volume` (the `get_volume_sum` call in flight); `done` (permit
released).  A task may enter `prices2` only while fewer than `K` tasks hold
a permit — `asyncio.Semaphore(K)`'s acquire blocks otherwise. -/

/-- Phase of one timeframe task. -/
inductive Phase : Type
  | pending
  | prices2
  | prices1
  | volume
  | done
  deriving DecidableEq

/-- Does a task in this phase hold a semaphore permit? -/
def holdsPermit : Phase → Bool
  | Phase.prices2 => true
  | Phase.prices1 => true
  | Phase.volume => true
  | _ => false

/-- Outbound HTTP requests in flight for a task in this phase. -/
def outCalls : Phase → ℕ
  | Phase.prices2 => 2
  | Phase.prices1 => 1
  | Phase.volume => 1
  | _ => 0

/-- Tasks currently holding a semaphore permit. -/
def holders (s : List Phase) : ℕ := s.countP holdsPermit

/-- Outbound HTTP requests currently in flight across the batch. -/
def inflight (s : List Phase) : ℕ := (s.map outCalls).sum

/-- One scheduler step of a timeframe batch under `asyncio.Semaphore K`. -/
inductive TfStep (K : ℕ) : List Phase → List Phase → Prop
  | start (s : List Phase) (i : ℕ) :
      s[i]? = some Phase.pending → holders s < K →
      TfStep K s (s.set i Phase.prices2)
  | firstPriceDone (s : List Phase) (i : ℕ) :
      s[i]? = some Phase.prices2 → TfStep K s (s.set i Phase.prices1)
  | secondPriceDone (s : List Phase) (i : ℕ) :
      s[i]? = some Phase.prices1 → TfStep K s (s.set i Phase.volume)
  | volumeDone (s : List Phase) (i : ℕ) :
      s[i]? = some Phase.volume → TfStep K s (s.set i Phase.done)

/-- Reachability from the all-pending initial batch state. -/
def TfReach (K : ℕ) : List Phase → List Phase → Prop :=
  Relation.ReflTransGen (TfStep K)

/-! ## Store lemmas -/

theorem setMerge_of_findField_none {fs : Fields} {n : String} (h : findField n fs = none)
    (d : Doc) : setMerge fs d n = d n := by
  simp [setMerge, h]

theorem setMerge_of_findField_some {fs : Fields} {n : String} {v : Val}
    (h : findField n fs = some v) (d : Doc) : setMerge fs d n = some v := by
  simp [setMerge, h]

theorem setMerge_setMerge (fs : Fields) (d : Doc) :
    setMerge fs (setMerge fs d) = setMerge fs d := by
  funext n
  unfold setMerge
  cases h : findField n fs <;> simp [h]

theorem updateOneTicker_ne {u : Bool} {t k : String} ( setF soiF : Fields) (st : Store)
    (h : k ≠ t) : updateOneTicker u t setF soiF st k = st k := by
  simp [updateOneTicker, h]

theorem updateOneTicker_true_at_key (t : String) ( setF soiF : Fields) (st : Store) :
    updateOneTicker true t setF soiF st t ≠ none := by
  unfold updateOneTicker
  cases h : st t <;> simp [h]

theorem updateOneTicker_isSome {u : Bool} {t k : String} ( setF soiF : Fields)
    {st : Store} (h : st k ≠ none) : updateOneTicker u t setF soiF st k ≠ none := by
  by_cases hk : k = t
  · subst hk
    unfold updateOneTicker
    cases hst : st k <;> simp [hst] at h ⊢
  · rw [updateOneTicker_ne _ _ _ hk]
    exact h

theorem foldl_upsert_ne {q : List (String × ℚ)} {k : String} (now : ℕ) (st : Store)
    (h : k ∉ q.map Prod.fst) : (q.foldl (upsertQualified now) st) k = st k := by
  induction q generalizing st with
  | nil => rfl
  | cons p rest ih =>
    simp only [List.map_cons, List.mem_cons, not_or] at h
    simp only [List.foldl_cons]
    rw [ih _ h.2, upsertQualified, updateOneTicker_ne _ _ _ h.1]

theorem foldl_upsert_isSome {q : List (String × ℚ)} {k : String} (now : ℕ) {st : Store}
    (h : st k ≠ none) : (q.foldl (upsertQualified now) st) k ≠ none := by
  induction q generalizing st with
  | nil => exact h
  | cons p rest ih =>
    simp only [List.foldl_cons]
    exact ih (updateOneTicker_isSome _ _ h)

theorem foldl_upsert_mem {q : List (String × ℚ)} {k : String} (now : ℕ) (st : Store)
    (h : k ∈ q.map Prod.fst) : (q.foldl (upsertQualified now) st) k ≠ none := by
  induction q generalizing st with
  | nil => simp at h
  | cons p rest ih =>
    simp only [List.foldl_cons]
    by_cases hk : k ∈ rest.map Prod.fst
    · exact ih _ hk
    · have hkp : k = p.1 := by
        simp only [List.map_cons, List.mem_cons] at h
        tauto
      subst hkp
      exact foldl_upsert_isSome now (updateOneTicker_true_at_key _ _ _ _)

/-- The persisted-symbol set after `sync_to_mongo` is exactly the key set
of the qualified mapping. -/
theorem sync_to_mongo_persisted (q : List (String × ℚ)) (now : ℕ) (st : Store)
    (k : String) :
    persistedKeys (sync_to_mongo q now st) k ↔ k ∈ q.map Prod.fst := by
  unfold persistedKeys sync_to_mongo deleteNotIn
  by_cases hk : k ∈ q.map Prod.fst
  · simp only [if_pos hk, hk, iff_true]
    exact foldl_upsert_mem now st hk
  · simp [hk]

/-- The document MongoDB builds on an upsert miss before `$set` applies:
the equality filter's `ticker` plus the `$setOnInsert` fields. -/
def baseDoc (t : String) : Doc :=
  fun f => if f = "ticker" then some (Val.str t) else none

/-- The document `$set` merges into: the matched document, or on a miss
the insert base. -/
def docOrBase (t : String) (soiF : Fields) (o : Option Doc) : Doc :=
  o.getD (setMerge soiF (baseDoc t))

theorem updateOneTicker_true_eval (t : String) ( setF soiF : Fields) (st : Store) :
    updateOneTicker true t setF soiF st t =
      some (setMerge setF (docOrBase t soiF (st t))) := by
  unfold updateOneTicker docOrBase baseDoc
  cases h : st t <;> simp [h]

/-- The `$set` clause of one `sync_to_mongo` upsert. -/
def syncSetF (k : String) (m : ℚ) (now : ℕ) : Fields :=
  [("ticker", Val.str k), ("market_cap", Val.num m), ("universe_updated_at", Val.time now)]

theorem upsertQualified_def (now : ℕ) (st : Store) (p : String × ℚ) :
    upsertQualified now st p =
      updateOneTicker true p.1 (syncSetF p.1 p.2 now) [("created_at", Val.time now)] st :=
  rfl

/-- Under distinct keys (the input is a Python dict), the document stored
for a qualified symbol after the upsert pass. -/
theorem foldl_upsert_eval {q : List (String × ℚ)} {k : String} {m : ℚ} (now : ℕ)
    (st : Store) (hnd : (q.map Prod.fst).Nodup) (hmem : (k, m) ∈ q) :
    (q.foldl (upsertQualified now) st) k =
      some (setMerge (syncSetF k m now) (docOrBase k [("created_at", Val.time now)] (st k))) := by
  induction q generalizing st with
  | nil => simp at hmem
  | cons p rest ih =>
    simp only [List.map_cons, List.nodup_cons] at hnd
    simp only [List.foldl_cons]
    by_cases hk : k = p.1
    · subst hk
      have hpm : p = (p.1, m) := by
        rcases List.mem_cons.mp hmem with h | h
        · exact h.symm
        · exact absurd (List.mem_map_of_mem Prod.fst h) hnd.1
      rw [foldl_upsert_ne now _ hnd.1, upsertQualified_def, updateOneTicker_true_eval]
      rw [hpm]
    · rcases List.mem_cons.mp hmem with h | h
      · exact absurd (congrArg Prod.fst h) hk
      · rw [ih _ hnd.2 h]
        rw [upsertQualified_def, updateOneTicker_ne _ _ _ hk]

/-- Fields other than the three named in the `$set` clause survive the
whole upsert pass untouched on an existing document. -/
theorem foldl_upsert_preserves_field {q : List (String × ℚ)} {k : String} {d : Doc}
    (now : ℕ) {st : Store} (h : st k = some d) (n : String) (hn1 : n ≠ "ticker")
    (hn2 : n ≠ "market_cap") (hn3 : n ≠ "universe_updated_at") :
    ∃ d', (q.foldl (upsertQualified now) st) k = some d' ∧ d' n = d n := by
  induction q generalizing st d with
  | nil => exact ⟨d, h, rfl⟩
  | cons p rest ih =>
    simp only [List.foldl_cons]
    by_cases hk : k = p.1
    · subst hk
      have hstep : (upsertQualified now st p) p.1 =
          some (setMerge (syncSetF p.1 p.2 now) d) := by
        rw [upsertQualified_def, updateOneTicker_true_eval, docOrBase, h, Option.getD_some]
      obtain ⟨d', hd', hval⟩ := ih hstep
      refine ⟨d', hd', hval.trans ?_⟩
      simp only [setMerge, syncSetF, findField]
      rw [if_neg (Ne.symm hn1), if_neg (Ne.symm hn2), if_neg (Ne.symm hn3)]
    · have hstep : (upsertQualified now st p) k = some d := by
        rw [upsertQualified_def, updateOneTicker_ne _ _ _ hk, h]
      exact ih hstep

/-- A symbol absent from the store that the upsert pass inserts gets
`created_at` set to the pass's timestamp. -/
theorem foldl_upsert_insert_created {q : List (String × ℚ)} {k : String} (now : ℕ)
    {st : Store} (h0 : st k = none) (hmem : k ∈ q.map Prod.fst) :
    ∃ d', (q.foldl (upsertQualified now) st) k = some d' ∧
      d' "created_at" = some (Val.time now) := by
  induction q generalizing st with
  | nil => simp at hmem
  | cons p rest ih =>
    simp only [List.foldl_cons]
    by_cases hk : k = p.1
    · subst hk
      have hstep : (upsertQualified now st p) p.1 =
          some (setMerge (syncSetF p.1 p.2 now)
            (setMerge [("created_at", Val.time now)] (baseDoc p.1))) := by
        rw [upsertQualified_def, updateOneTicker_true_eval, docOrBase, h0, Option.getD_none]
      have hca : (setMerge (syncSetF p.1 p.2 now)
          (setMerge [("created_at", Val.time now)] (baseDoc p.1))) "created_at" =
          some (Val.time now) := by
        simp [setMerge, syncSetF, findField, baseDoc]
      obtain ⟨d', hd', hval⟩ := foldl_upsert_preserves_field now hstep "created_at"
        (by decide) (by decide) (by decide)
      exact ⟨d', hd', hval.trans hca⟩
    · have hstep : (upsertQualified now st p) k = none := by
        rw [upsertQualified_def, updateOneTicker_ne _ _ _ hk, h0]
      have hmem' : k ∈ rest.map Prod.fst := by
        simp only [List.map_cons, List.mem_cons] at hmem
        tauto
      exact ih hstep hmem'

/-! ## Claim C2: reconciliation partitions, upserts, deletes -/

/-- C2: reconciliation partitions candidates into qualifying
(`market_cap >= threshold`, for a positive threshold) and the rest,
upserts every qualifying symbol, and deletes every persisted record whose
symbol is not in the qualifying set: the persisted key set afterwards is
exactly the qualifying key set. -/
theorem claim_C2_reconcile (threshold : ℚ) (hthr : 0 < threshold)
    (fetched : List (String × Option ℚ)) (now : ℕ) (st : Store) :
    (∀ s c, (s, c) ∈ filter_by_market_cap_parallel threshold fetched ↔
      ((s, some c) ∈ fetched ∧ threshold ≤ c)) ∧
    (∀ k, persistedKeys
        (sync_to_mongo (filter_by_market_cap_parallel threshold fetched) now st) k ↔
      k ∈ (filter_by_market_cap_parallel threshold fetched).map Prod.fst) := by
  constructor
  · intro s c
    unfold filter_by_market_cap_parallel
    rw [List.mem_filterMap]
    constructor
    · rintro ⟨⟨s', cap?⟩, hmem, hf⟩
      cases cap? with
      | none => simp at hf
      | some cap =>
        simp only at hf
        by_cases hc : cap ≠ 0 ∧ threshold ≤ cap
        · rw [if_pos hc] at hf
          simp only [Option.some.injEq, Prod.mk.injEq] at hf
          obtain ⟨rfl, rfl⟩ := hf
          exact ⟨hmem, hc.2⟩
        · rw [if_neg hc] at hf
          exact absurd hf (by simp)
    · rintro ⟨hmem, hle⟩
      refine ⟨(s, some c), hmem, ?_⟩
      have hc0 : c ≠ 0 := (hthr.trans_le hle).ne'
      simp [hc0, hle]
  · intro k
    exact sync_to_mongo_persisted _ now st k

/-- The concrete candidate list of the spec's reconcile example. -/
def demoCandidates : List (String × Option ℚ) :=
  [("A", some 600000000), ("B", some 400000000), ("C", some 500000000)]

/-- A starting store holding only a previously persisted symbol `D`. -/
def demoStoreD : Store :=
  fun k => if k = "D" then some (baseDoc "D") else none

theorem demoFilter_eq :
    filter_by_market_cap_parallel 500000000 demoCandidates =
      [("A", 600000000), ("C", 500000000)] := by
  norm_num [filter_by_market_cap_parallel, demoCandidates, List.filterMap_cons,
    List.filterMap_nil]

/-- Witness for C2 at the spec's own example: threshold 500M over
`{A: 600M, B: 400M, C: 500M}` with `D` previously persisted leaves exactly
`{A, C}` persisted. -/
theorem claim_C2_reconcile_witness :
    (0:ℚ) < 500000000 ∧
    persistedKeys
      (sync_to_mongo (filter_by_market_cap_parallel 500000000 demoCandidates) 3 demoStoreD)
      "A" ∧
    persistedKeys
      (sync_to_mongo (filter_by_market_cap_parallel 500000000 demoCandidates) 3 demoStoreD)
      "C" ∧
    ¬ persistedKeys
      (sync_to_mongo (filter_by_market_cap_parallel 500000000 demoCandidates) 3 demoStoreD)
      "B" ∧
    ¬ persistedKeys
      (sync_to_mongo (filter_by_market_cap_parallel 500000000 demoCandidates) 3 demoStoreD)
      "D" := by
  have h := claim_C2_reconcile 500000000 (by norm_num) demoCandidates 3 demoStoreD
  refine ⟨by norm_num, ?_, ?_, ?_, ?_⟩
  · exact (h.2 "A").mpr (by rw [demoFilter_eq]; simp)
  · exact (h.2 "C").mpr (by rw [demoFilter_eq]; simp)
  · intro hp
    have hb := (h.2 "B").mp hp
    rw [demoFilter_eq] at hb
    simp at hb
  · intro hp
    have hd := (h.2 "D").mp hp
    rw [demoFilter_eq] at hd
    simp at hd

/-! ## Claim C3: reconciliation is idempotent -/

/-- C3: for every qualified mapping (a Python dict, so its keys are
distinct) and every starting store, running `sync_to_mongo` twice leaves
the persisted symbol set identical to running it once; run at the same
timestamp, the second run leaves the whole store literally unchanged. -/
theorem claim_C3_reconcile_idempotent (q : List (String × ℚ))
    (hnd : (q.map Prod.fst).Nodup) :
    (∀ now₁ now₂ st k,
      persistedKeys (sync_to_mongo q now₂ (sync_to_mongo q now₁ st)) k ↔
        persistedKeys (sync_to_mongo q now₁ st) k) ∧
    (∀ now st, sync_to_mongo q now (sync_to_mongo q now st) = sync_to_mongo q now st) := by
  constructor
  · intro now₁ now₂ st k
    rw [sync_to_mongo_persisted, sync_to_mongo_persisted]
  · intro now st
    funext k
    by_cases hk : k ∈ q.map Prod.fst
    · obtain ⟨⟨k', m⟩, hmemp, hfst⟩ := List.mem_map.mp hk
      simp only at hfst
      subst hfst
      have heval : ∀ st' : Store, sync_to_mongo q now st' k' =
          some (setMerge (syncSetF k' m now)
            (docOrBase k' [("created_at", Val.time now)] (st' k'))) := by
        intro st'
        unfold sync_to_mongo deleteNotIn
        rw [if_pos hk, foldl_upsert_eval now st' hnd hmemp]
      rw [heval, heval]
      simp [docOrBase, setMerge_setMerge]
    · have hnone : ∀ st' : Store, sync_to_mongo q now st' k = none := by
        intro st'
        unfold sync_to_mongo deleteNotIn
        rw [if_neg hk]
      rw [hnone, hnone]

/-- Witness for C3 at a concrete qualified mapping and the empty store. -/
theorem claim_C3_reconcile_idempotent_witness :
    (([("A", (600000000:ℚ)), ("C", 500000000)]).map Prod.fst).Nodup ∧
    sync_to_mongo [("A", 600000000), ("C", 500000000)] 4
        (sync_to_mongo [("A", 600000000), ("C", 500000000)] 4 emptyStore) =
      sync_to_mongo [("A", 600000000), ("C", 500000000)] 4 emptyStore := by
  have h := claim_C3_reconcile_idempotent [("A", 600000000), ("C", 500000000)]
    (by simp)
  exact ⟨by simp, h.2 4 emptyStore⟩

/-! ## Claim C8: `created_at` is set once and never changed -/

/-- The `out` dict `fetch_metrics` returns never contains a `created_at`
key, so the worker's `$set` cannot touch it. -/
theorem fetch_metrics_no_created_at {t : String} {now : ℕ} {env : PolyEnv}
    {data : Fields} (h : fetch_metrics t now env = some data) :
    findField "created_at" data = none := by
  rcases env with ⟨ref, fin, oc⟩
  cases ref <;> cases fin <;> cases oc <;> simp [fetch_metrics] at h
  rw [← h]
  simp [findField]

/-- C8: `created_at` is set exactly once.  (1) A reconcile run leaves an
existing qualifying symbol's `created_at` untouched; (2) a reconcile run
that first inserts a symbol sets `created_at` to that run's timestamp;
(3) a metrics-refresh (`worker`) leaves an existing `created_at`
untouched, whether or not the fetch succeeded; (4) a metrics-refresh that
first inserts a symbol sets `created_at` to its own timestamp. -/
theorem claim_C8_created_at_set_once :
    (∀ (q : List (String × ℚ)) (now : ℕ) (st : Store) (k : String) (d : Doc) (v : Val),
      st k = some d → d "created_at" = some v → k ∈ q.map Prod.fst →
      ∃ d', sync_to_mongo q now st k = some d' ∧ d' "created_at" = some v) ∧
    (∀ (q : List (String × ℚ)) (now : ℕ) (st : Store) (k : String),
      st k = none → k ∈ q.map Prod.fst →
      ∃ d', sync_to_mongo q now st k = some d' ∧ d' "created_at" = some (Val.time now)) ∧
    (∀ (sym : String) (now created : ℕ) (env : PolyEnv) (st : Store) (d : Doc) (v : Val),
      st sym = some d → d "created_at" = some v →
      ∃ d', worker sym now created env st sym = some d' ∧ d' "created_at" = some v) ∧
    (∀ (sym : String) (now created : ℕ) (env : PolyEnv) (st : Store),
      st sym = none → fetch_metrics sym now env ≠ none →
      ∃ d', worker sym now created env st sym = some d' ∧
        d' "created_at" = some (Val.time created)) := by
  refine ⟨?_, ?_, ?_, ?_⟩
  · intro q now st k d v hst hca hk
    unfold sync_to_mongo deleteNotIn
    rw [if_pos hk]
    obtain ⟨d', hd', hval⟩ := foldl_upsert_preserves_field now hst "created_at"
      (by decide) (by decide) (by decide)
    exact ⟨d', hd', hval.trans hca⟩
  · intro q now st k hst hk
    unfold sync_to_mongo deleteNotIn
    rw [if_pos hk]
    exact foldl_upsert_insert_created now hst hk
  · intro sym now created env st d v hst hca
    cases hf : fetch_metrics sym now env with
    | none =>
      refine ⟨d, ?_, hca⟩
      simp [worker, hf, hst]
    | some data =>
      have hw : worker sym now created env st sym =
          some (setMerge data (docOrBase sym [("created_at", Val.time created)] (st sym))) := by
        simp only [worker, hf]
        exact updateOneTicker_true_eval _ _ _ _
      rw [docOrBase, hst, Option.getD_some] at hw
      refine ⟨_, hw, ?_⟩
      rw [setMerge_of_findField_none (fetch_metrics_no_created_at hf), hca]
  · intro sym now created env st hst hfet
    cases hf : fetch_metrics sym now env with
    | none => exact absurd hf hfet
    | some data =>
      have hw : worker sym now created env st sym =
          some (setMerge data (docOrBase sym [("created_at", Val.time created)] (st sym))) := by
        simp only [worker, hf]
        exact updateOneTicker_true_eval _ _ _ _
      rw [docOrBase, hst, Option.getD_none] at hw
      refine ⟨_, hw, ?_⟩
      rw [setMerge_of_findField_none (fetch_metrics_no_created_at hf)]
      simp [setMerge, findField]

/-- A store holding one symbol `A` whose `created_at` is tick 5. -/
def demoStoreCA : Store :=
  fun k => if k = "A" then
    some (fun f => if f = "created_at" then some (Val.time 5) else none)
  else none

/-- Witness for C8: a later reconcile run (tick 9) keeps `A`'s original
`created_at` tick 5; inserting a fresh symbol `B` stamps it with the
inserting run's tick 9. -/
theorem claim_C8_created_at_set_once_witness :
    (∃ d', sync_to_mongo [("A", 600000000)] 9 demoStoreCA "A" = some d' ∧
      d' "created_at" = some (Val.time 5)) ∧
    (∃ d', sync_to_mongo [("B", 600000000)] 9 emptyStore "B" = some d' ∧
      d' "created_at" = some (Val.time 9)) := by
  constructor
  · exact claim_C8_created_at_set_once.1 [("A", 600000000)] 9 demoStoreCA "A"
      (fun f => if f = "created_at" then some (Val.time 5) else none) (Val.time 5)
      rfl rfl (by simp)
  · exact claim_C8_created_at_set_once.2.1 [("B", 600000000)] 9 emptyStore "B"
      rfl (by simp)

/-! ## Claim C7: persistence writes are upsert-merges -/

/-- C7 counterexample: the dashboard's save loop calls `update_one`
without `upsert=True`, so writing metrics for a symbol with no persisted
record does not create the record — the claim's "creating the record if
absent" fails on this write path. -/
theorem claim_C7_counterexample :
    ¬ persistedKeys (dashboard_update ⟨"X", some 10, some 5⟩ emptyStore) "X" :=
  fun h => h rfl

/-- C7 amended: the metrics-refresh and reconcile writes are `$set`-style
upsert-merges — on a match they merge exactly the given fields and leave
every field not named in the `$set` clause untouched, on a miss they
create the record; the dashboard's timeframe write is the same
`$set`-merge but without `upsert`, so on a miss it leaves the store
unchanged instead of creating the record. -/
theorem claim_C7_upsert_merge :
    (∀ (t : String) ( setF soiF : Fields) (st : Store) (d : Doc),
      st t = some d →
      updateOneTicker true t setF soiF st t = some (setMerge setF d) ∧
      ∀ n, findField n setF = none → setMerge setF d n = d n) ∧
    (∀ (u : Bool) (t k : String) ( setF soiF : Fields) (st : Store),
      k ≠ t → updateOneTicker u t setF soiF st k = st k) ∧
    (∀ (t : String) ( setF soiF : Fields) (st : Store),
      st t = none → updateOneTicker true t setF soiF st t ≠ none) ∧
    (∀ (m : TFResult) (st : Store) (d : Doc),
      st m.ticker = some d →
      dashboard_update m st m.ticker =
        some (setMerge [("stock_change_pct", optNum m.stock_change_pct),
          ("volume_custom", optNum m.volume_custom)] d)) ∧
    (∀ (m : TFResult) (st : Store),
      st m.ticker = none → dashboard_update m st = st) := by
  refine ⟨?_, ?_, ?_, ?_, ?_⟩
  · intro t setF soiF st d hst
    constructor
    · rw [updateOneTicker_true_eval, docOrBase, hst, Option.getD_some]
    · intro n hn
      exact setMerge_of_findField_none hn d
  · intro u t k setF soiF st hk
    exact updateOneTicker_ne _ _ _ hk
  · intro t setF soiF st _
    exact updateOneTicker_true_at_key _ _ _ _
  · intro m st d hst
    unfold dashboard_update updateOneTicker
    simp [hst]
  · intro m st hst
    funext k
    unfold dashboard_update updateOneTicker
    by_cases hk : k = m.ticker
    · subst hk
      simp [hst]
    · simp [hk]

/-- A store holding one symbol `Q` with only its `ticker` field. -/
def demoStoreQ : Store :=
  fun k => if k = "Q" then some (baseDoc "Q") else none

/-- Witness for C7 (amended): each write path exercised at a concrete
store — merge on a match, no-op on other keys, creation on an upsert
miss, dashboard merge on a match, dashboard no-op on a miss. -/
theorem claim_C7_upsert_merge_witness :
    updateOneTicker true "Q" [("market_cap", Val.num 1)] [] demoStoreQ "Q" =
      some (setMerge [("market_cap", Val.num 1)] (baseDoc "Q")) ∧
    updateOneTicker false "Q" [("market_cap", Val.num 1)] [] demoStoreQ "R" =
      demoStoreQ "R" ∧
    updateOneTicker true "R" [("market_cap", Val.num 1)] [] demoStoreQ "R" ≠ none ∧
    dashboard_update ⟨"Q", some 10, none⟩ demoStoreQ "Q" =
      some (setMerge [("stock_change_pct", optNum (some 10)),
        ("volume_custom", optNum none)] (baseDoc "Q")) ∧
    dashboard_update ⟨"R", some 10, none⟩ demoStoreQ = demoStoreQ := by
  refine ⟨?_, ?_, ?_, ?_, ?_⟩
  · exact (claim_C7_upsert_merge.1 "Q" _ _ demoStoreQ (baseDoc "Q") rfl).1
  · exact claim_C7_upsert_merge.2.1 false "Q" "R" _ _ demoStoreQ (by decide)
  · exact claim_C7_upsert_merge.2.2.1 "R" _ _ demoStoreQ rfl
  · exact claim_C7_upsert_merge.2.2.2.1 ⟨"Q", some 10, none⟩ demoStoreQ (baseDoc "Q") rfl
  · exact claim_C7_upsert_merge.2.2.2.2 ⟨"R", some 10, none⟩ demoStoreQ rfl

/-! ## Claim C1: the per-symbol orchestrator and partial failure -/

/-- C1 counterexample: with the reference lookup succeeding (industry
"TECHNOLOGY" available) but the financials fetch raising, `fetch_metrics`
returns `None` — no result object at all, the computable industry field
discarded — refuting "always returns a result object for that symbol with
whichever fields it could compute populated". -/
theorem claim_C1_counterexample :
    ¬ ∃ out, fetch_metrics "AAPL" 0
      ⟨Sub.ok (some "TECHNOLOGY"), Sub.fail, Sub.ok (some 10)⟩ = some out := by
  rintro ⟨out, h⟩
  simp [fetch_metrics] at h

/-- C1 amended: `fetch_metrics` never propagates an exception (its Lean
type returns a plain `Option`), but failures are caught by one
function-wide handler, not locally per sub-fetch: it returns `None`
exactly when any of the three sub-fetches raises, discarding any fields
already computed; only when no sub-fetch raises does it return a result
dict, with each field that could be computed populated and unavailable
values null. -/
theorem claim_C1_orchestrator_total :
    ∀ (t : String) (now : ℕ) (env : PolyEnv),
      (fetch_metrics t now env = none ↔
        env.ref = Sub.fail ∨ env.fin = Sub.fail ∨ env.oc = Sub.fail) ∧
      (∀ ind reports close?,
        env = ⟨Sub.ok ind, Sub.ok reports, Sub.ok close?⟩ →
        ∃ data, fetch_metrics t now env = some data ∧
          findField "ticker" data = some (Val.str t) ∧
          findField "industry" data = some (optStr ind) ∧
          findField "eps" data = some (optNum (epsTTM reports)) ∧
          findField "net_income_quarterly" data =
            some (optNum (reports.head?.bind FinReport.netIncome)) ∧
          findField "revenue_quarterly" data =
            some (optNum (reports.head?.bind FinReport.revenue)) ∧
          findField "close_price" data = some (optNum close?) ∧
          findField "pe_ratio" data = some (optNum (peRatio close? (epsTTM reports)))) := by
  intro t now env
  constructor
  · rcases env with ⟨ref, fin, oc⟩
    cases ref <;> cases fin <;> cases oc <;> simp [fetch_metrics]
  · rintro ind reports close? rfl
    refine ⟨_, rfl, ?_, ?_, ?_, ?_, ?_, ?_, ?_⟩ <;> simp [findField]

/-- Witness for C1 (amended): a symbol whose close-price lookup found no
data (non-200) still yields a result dict with industry populated and
close price / PE null. -/
theorem claim_C1_orchestrator_total_witness :
    ∃ data, fetch_metrics "MSFT" 2
        ⟨Sub.ok (some "SOFTWARE"), Sub.ok [], Sub.ok none⟩ = some data ∧
      findField "industry" data = some (Val.str "SOFTWARE") ∧
      findField "eps" data = some Val.null ∧
      findField "close_price" data = some Val.null ∧
      findField "pe_ratio" data = some Val.null := by
  obtain ⟨data, hd, h1, h2, h3, _, _, h6, h7⟩ :=
    (claim_C1_orchestrator_total "MSFT" 2
      ⟨Sub.ok (some "SOFTWARE"), Sub.ok [], Sub.ok none⟩).2 (some "SOFTWARE") [] none rfl
  refine ⟨data, hd, ?_, ?_, ?_, ?_⟩
  · simpa [optStr] using h2
  · simpa [epsTTM, optNum] using h3
  · simpa [optNum] using h6
  · simpa [peRatio, epsTTM, optNum] using h7

/-! ## Claim C5: derived financial ratios -/

/-- C5 counterexample: with latest-quarter net income 1 and revenue 3, the
code stores `round(1/3, 4) = 0.3333`, not `1/3` — the claim's
"equals net_income / revenue" fails (the code rounds to 4 places; likewise
`pe_ratio` is rounded to 2 places). -/
theorem claim_C5_counterexample :
    (∃ data, fetch_metrics "T" 0
        ⟨Sub.ok none, Sub.ok [⟨some 1, some 3, none⟩], Sub.ok none⟩ = some data ∧
      findField "net_profit_margin" data = some (Val.num (3333/10000))) ∧
    (3333/10000 : ℚ) ≠ 1/3 := by
  constructor
  · refine ⟨_, rfl, ?_⟩
    have hm : netProfitMargin (some 1) (some 3) = some (3333/10000) := by
      norm_num [netProfitMargin, roundTo, roundHalfEven]
    simp [findField, hm, optNum]
  · norm_num

/-- C5 amended: `net_profit_margin` is null (never a division error)
whenever the latest quarter's revenue is zero, null, or missing, and
equals `round(net_income / revenue, 4)` when both are present and revenue
is nonzero; `pe_ratio` is null whenever `eps_ttm` is zero, null, or the
close price is missing, and equals `round(close_price / eps_ttm, 2)`
otherwise; the two fields are independently nullable. -/
theorem claim_C5_derived_metrics :
    ∀ (t : String) (now : ℕ) (ind : Option String) (reports : List FinReport)
      (close? : Option ℚ) (data : Fields),
      fetch_metrics t now ⟨Sub.ok ind, Sub.ok reports, Sub.ok close?⟩ = some data →
      ((reports.head?.bind FinReport.revenue = none ∨
        reports.head?.bind FinReport.revenue = some 0) →
        findField "net_profit_margin" data = some Val.null) ∧
      (∀ n r, reports.head?.bind FinReport.netIncome = some n →
        reports.head?.bind FinReport.revenue = some r → r ≠ 0 →
        findField "net_profit_margin" data = some (Val.num (roundTo 4 (n / r)))) ∧
      ((epsTTM reports = none ∨ epsTTM reports = some 0 ∨ close? = none) →
        findField "pe_ratio" data = some Val.null) ∧
      (∀ c e, close? = some c → epsTTM reports = some e → e ≠ 0 →
        findField "pe_ratio" data = some (Val.num (roundTo 2 (c / e)))) := by
  intro t now ind reports close? data h
  simp only [fetch_metrics, Option.some.injEq] at h
  subst h
  refine ⟨?_, ?_, ?_, ?_⟩
  · intro hrev
    rcases hrev with hrev | hrev <;>
      · cases hni : reports.head?.bind FinReport.netIncome <;>
          simp [findField, netProfitMargin, hni, hrev, optNum]
  · intro n r hn hr hr0
    simp [findField, netProfitMargin, hn, hr, hr0, optNum]
  · intro heps
    rcases heps with heps | heps | heps
    · cases close? <;> simp [findField, peRatio, heps, optNum]
    · cases close? <;> simp [findField, peRatio, heps, optNum]
    · simp [findField, peRatio, heps, optNum]
  · intro c e hc he he0
    simp [findField, peRatio, hc, he, he0, optNum]

/-- Witness for C5 (amended): margin populated while PE is null (no EPS
reported), and margin null (zero revenue) while PE is populated — the two
derived fields are independently nullable, and zero revenue yields null,
not an error. -/
theorem claim_C5_derived_metrics_witness :
    (∃ data, fetch_metrics "T" 1
        ⟨Sub.ok none, Sub.ok [⟨some 1, some 4, none⟩], Sub.ok (some 10)⟩ = some data ∧
      findField "net_profit_margin" data = some (Val.num (1/4)) ∧
      findField "pe_ratio" data = some Val.null) ∧
    (∃ data, fetch_metrics "T" 1
        ⟨Sub.ok none, Sub.ok [⟨some 1, some 0, some 2⟩], Sub.ok (some 10)⟩ = some data ∧
      findField "net_profit_margin" data = some Val.null ∧
      findField "pe_ratio" data = some (Val.num 5)) := by
  constructor
  · refine ⟨_, rfl, ?_, ?_⟩
    · have h := (claim_C5_derived_metrics "T" 1 none [⟨some 1, some 4, none⟩]
        (some 10) _ rfl).2.1 1 4 rfl rfl (by norm_num)
      rw [h]
      norm_num [roundTo, roundHalfEven]
    · exact (claim_C5_derived_metrics "T" 1 none [⟨some 1, some 4, none⟩]
        (some 10) _ rfl).2.2.1 (Or.inl (by simp [epsTTM]))
  · refine ⟨_, rfl, ?_, ?_⟩
    · exact (claim_C5_derived_metrics "T" 1 none [⟨some 1, some 0, some 2⟩]
        (some 10) _ rfl).1 (Or.inr rfl)
    · have he : epsTTM [⟨some 1, some 0, some 2⟩] = some 2 := by
        norm_num [epsTTM, roundTo, roundHalfEven, List.filterMap_cons]
      have h := (claim_C5_derived_metrics "T" 1 none [⟨some 1, some 0, some 2⟩]
        (some 10) _ rfl).2.2.2 10 2 rfl he (by norm_num)
      rw [h]
      norm_num [roundTo, roundHalfEven]

/-! ## Claims C4, C10, C6: the timeframe variant -/

theorem fetch_stock_metrics_ticker (t : String) (a b c : Option ℚ) :
    (fetch_stock_metrics t a b c).ticker = t := by
  cases a with
  | none => rfl
  | some s =>
    cases b with
    | none => rfl
    | some e =>
      by_cases h : s = 0 ∨ e = 0 <;> simp [fetch_stock_metrics, h]

/-- C4: with both endpoint prices present (and nonzero — a zero price is
falsy in Python and treated as missing, see C10), `stock_change_pct` is
`round((end - start) / start * 100, 2)` and the fetched volume is kept;
with either endpoint price missing the result is all-null, volume
included. -/
theorem claim_C4_timeframe_change :
    (∀ (t : String) (s e : ℚ) (v : Option ℚ), s ≠ 0 → e ≠ 0 →
      fetch_stock_metrics t (some s) (some e) v =
        ⟨t, some (roundTo 2 ((e - s) / s * 100)), v⟩) ∧
    (∀ (t : String) (e? v : Option ℚ),
      fetch_stock_metrics t none e? v = ⟨t, none, none⟩) ∧
    (∀ (t : String) (s? v : Option ℚ),
      fetch_stock_metrics t s? none v = ⟨t, none, none⟩) := by
  refine ⟨?_, ?_, ?_⟩
  · intro t s e v hs he
    simp [fetch_stock_metrics, hs, he]
  · intro t e? v
    cases e? <;> rfl
  · intro t s? v
    cases s? <;> rfl

/-- Witness for C4: start 100, end 110 gives exactly 10.0; a missing start
price nulls both fields even though volume data (7) exists. -/
theorem claim_C4_timeframe_change_witness :
    fetch_stock_metrics "A" (some 100) (some 110) (some 7) = ⟨"A", some 10, some 7⟩ ∧
    fetch_stock_metrics "A" none (some 110) (some 7) = ⟨"A", none, none⟩ := by
  constructor
  · rw [claim_C4_timeframe_change.1 "A" 100 110 (some 7) (by norm_num) (by norm_num)]
    norm_num [roundTo, roundHalfEven]
  · exact claim_C4_timeframe_change.2.1 "A" (some 110) (some 7)

/-- C10 (implicit): a fetched endpoint price equal to 0 is treated exactly
like a missing price (Python truthiness), yielding the all-null result;
consequently whenever `stock_change_pct` is produced, its divisor — the
start price — is nonzero. -/
theorem claim_C10_zero_price_like_missing :
    (∀ (t : String) (e? v : Option ℚ),
      fetch_stock_metrics t (some 0) e? v = ⟨t, none, none⟩) ∧
    (∀ (t : String) (s? v : Option ℚ),
      fetch_stock_metrics t s? (some 0) v = ⟨t, none, none⟩) ∧
    (∀ (t : String) (s? e? v : Option ℚ) (c : ℚ),
      (fetch_stock_metrics t s? e? v).stock_change_pct = some c →
      ∃ s e, s? = some s ∧ e? = some e ∧ s ≠ 0 ∧ e ≠ 0 ∧
        c = roundTo 2 ((e - s) / s * 100)) := by
  refine ⟨?_, ?_, ?_⟩
  · intro t e? v
    cases e? <;> simp [fetch_stock_metrics]
  · intro t s? v
    cases s? <;> simp [fetch_stock_metrics]
  · intro t s? e? v c h
    cases s? with
    | none => simp [fetch_stock_metrics] at h
    | some s =>
      cases e? with
      | none => simp [fetch_stock_metrics] at h
      | some e =>
        by_cases hz : s = 0 ∨ e = 0
        · simp [fetch_stock_metrics, hz] at h
        · push_neg at hz
          simp [fetch_stock_metrics, hz.1, hz.2] at h
          exact ⟨s, e, rfl, rfl, hz.1, hz.2, h.symm⟩

/-- Witness for C10: a zero start price with volume data present still
nulls everything; and the produced 10.0 for prices 100 → 110 comes with a
provably nonzero divisor. -/
theorem claim_C10_zero_price_like_missing_witness :
    fetch_stock_metrics "B" (some 0) (some 50) (some 9) = ⟨"B", none, none⟩ ∧
    ∃ s e, (some (100:ℚ)) = some s ∧ (some (110:ℚ)) = some e ∧ s ≠ 0 ∧ e ≠ 0 ∧
      (10:ℚ) = roundTo 2 ((e - s) / s * 100) := by
  constructor
  · exact claim_C10_zero_price_like_missing.1 "B" (some 50) (some 9)
  · exact claim_C10_zero_price_like_missing.2.2 "B" (some 100) (some 110) (some 9) 10
      (by norm_num [fetch_stock_metrics, roundTo, roundHalfEven])

/-- C6: the timeframe batch returns exactly one result per input symbol in
order (the batch itself is a total function — it never raises); a symbol
whose outbound calls transport-error gets the all-null result, and a
symbol with both endpoint prices present (nonzero) gets its change
percentage and volume populated. -/
theorem claim_C6_batch_one_result_per_symbol :
    ∀ (tickers : List String) (env : String → TFFetch),
      (timeframe_main tickers env).length = tickers.length ∧
      (∀ (i : ℕ) (t : String), tickers[i]? = some t →
        (timeframe_main tickers env)[i]? = some (runFetch t (env t)) ∧
        (runFetch t (env t)).ticker = t) ∧
      (∀ t, env t = TFFetch.err → runFetch t (env t) = ⟨t, none, none⟩) ∧
      (∀ t s e v, env t = TFFetch.ok (some s) (some e) v → s ≠ 0 → e ≠ 0 →
        runFetch t (env t) = ⟨t, some (roundTo 2 ((e - s) / s * 100)), v⟩) := by
  intro tickers env
  refine ⟨?_, ?_, ?_, ?_⟩
  · simp [timeframe_main]
  · intro i t ht
    constructor
    · simp [timeframe_main, List.getElem?_map, ht]
    · cases henv : env t with
      | err => rfl
      | ok s e v => exact fetch_stock_metrics_ticker t s e v
  · intro t h
    rw [h]
    rfl
  · intro t s e v h hs he
    rw [h]
    simp [runFetch, fetch_stock_metrics, hs, he]

/-- The network behaviour of the C6 witness batch: `A` transport-errors,
`B` succeeds with prices 100 → 110 and summed volume 7. -/
def envC6 : String → TFFetch :=
  fun t => if t = "A" then TFFetch.err else TFFetch.ok (some 100) (some 110) (some 7)

/-- Witness for C6: a 2-symbol batch with 1 transport-erroring symbol
yields exactly 2 results in order — `A` all-null, `B` populated. -/
theorem claim_C6_batch_one_result_per_symbol_witness :
    (timeframe_main ["A", "B"] envC6).length = 2 ∧
    (timeframe_main ["A", "B"] envC6)[0]? = some ⟨"A", none, none⟩ ∧
    (timeframe_main ["A", "B"] envC6)[1]? = some ⟨"B", some 10, some 7⟩ := by
  have h := claim_C6_batch_one_result_per_symbol ["A", "B"] envC6
  refine ⟨h.1, ?_, ?_⟩
  · rw [(h.2.1 0 "A" rfl).1, h.2.2.1 "A" rfl]
  · rw [(h.2.1 1 "B" rfl).1,
      h.2.2.2 "B" 100 110 (some 7) rfl (by norm_num) (by norm_num)]
    norm_num [roundTo, roundHalfEven]

/-! ## Claim C9: the semaphore bound -/

theorem countP_set_add {α : Type} {l : List α} {i : ℕ} {b : α} (h : l[i]? = some b)
    (a : α) (p : α → Bool) :
    (l.set i a).countP p + (if p b then 1 else 0) =
      l.countP p + (if p a then 1 else 0) := by
  induction l generalizing i with
  | nil => simp at h
  | cons x xs ih =>
    cases i with
    | zero =>
      simp only [List.getElem?_cons_zero, Option.some.injEq] at h
      subst h
      simp only [List.set_cons_zero, List.countP_cons]
      omega
    | succ n =>
      simp only [List.getElem?_cons_succ] at h
      simp only [List.set_cons_succ, List.countP_cons]
      have := ih h
      omega

theorem sum_map_outCalls_set {l : List Phase} {i : ℕ} {b : Phase} (h : l[i]? = some b)
    (a : Phase) :
    inflight (l.set i a) + outCalls b = inflight l + outCalls a := by
  induction l generalizing i with
  | nil => simp at h
  | cons x xs ih =>
    cases i with
    | zero =>
      simp only [List.getElem?_cons_zero, Option.some.injEq] at h
      subst h
      simp only [List.set_cons_zero, inflight, List.map_cons, List.sum_cons]
      omega
    | succ n =>
      simp only [List.getElem?_cons_succ] at h
      simp only [List.set_cons_succ, inflight, List.map_cons, List.sum_cons] at *
      have := ih h
      omega

theorem inflight_le_two_mul_holders : ∀ s : List Phase, inflight s ≤ 2 * holders s := by
  intro s
  induction s with
  | nil => simp [inflight, holders]
  | cons x xs ih =>
    simp only [inflight, holders, List.map_cons, List.sum_cons, List.countP_cons] at ih ⊢
    cases x <;> simp [outCalls, holdsPermit] <;> omega

theorem holders_replicate (n : ℕ) : holders (List.replicate n Phase.pending) = 0 := by
  induction n with
  | zero => rfl
  | succ m ih =>
    simp only [holders] at ih
    simp [List.replicate, holders, List.countP_cons, holdsPermit, ih]

theorem tfStep_holders_le {K : ℕ} {s s' : List Phase} (hstep : TfStep K s s')
    (h : holders s ≤ K) : holders s' ≤ K := by
  cases hstep with
  | start i hi hlt =>
    have hc := countP_set_add hi Phase.prices2 holdsPermit
    simp only [holdsPermit, if_pos, if_neg, Bool.false_eq_true, if_false, if_true] at hc
    unfold holders at *
    omega
  | firstPriceDone i hi =>
    have hc := countP_set_add hi Phase.prices1 holdsPermit
    simp only [holdsPermit, if_true] at hc
    unfold holders at *
    omega
  | secondPriceDone i hi =>
    have hc := countP_set_add hi Phase.volume holdsPermit
    simp only [holdsPermit, if_true] at hc
    unfold holders at *
    omega
  | volumeDone i hi =>
    have hc := countP_set_add hi Phase.done holdsPermit
    simp only [holdsPermit, Bool.false_eq_true, if_false, if_true] at hc
    unfold holders at *
    omega

theorem tfReach_holders_le {K n : ℕ} {s : List Phase}
    (h : TfReach K (List.replicate n Phase.pending) s) : holders s ≤ K := by
  induction h with
  | refl => simp [holders_replicate]
  | tail _ hstep ih => exact tfStep_holders_le hstep ih

/-- C9 counterexample state: two tasks each holding one permit (K = 2) and
each with its two endpoint-price requests in flight — 4 concurrent
outbound API calls. -/
def fourCallsState : List Phase :=
  Phase.prices2 :: Phase.prices2 :: List.replicate 8 Phase.pending

/-- C9 counterexample: with `K = 2` over 10 symbols, a reachable scheduler
state of the timeframe batch has 4 outbound API calls in flight — more
than `K` — because each `fetch_stock_metrics` task holds a single permit
while `asyncio.gather` runs its two `get_close_price` requests
concurrently.  This refutes "at no point are more than K fetch operations
in flight" read over outbound API calls. -/
theorem claim_C9_counterexample :
    TfReach 2 (List.replicate 10 Phase.pending) fourCallsState ∧
    2 < inflight fourCallsState := by
  constructor
  · have h1 : TfStep 2 (List.replicate 10 Phase.pending)
        ((List.replicate 10 Phase.pending).set 0 Phase.prices2) :=
      TfStep.start _ 0 (by decide) (by decide)
    have e1 : (List.replicate 10 Phase.pending).set 0 Phase.prices2 =
        Phase.prices2 :: List.replicate 9 Phase.pending := by decide
    have h2 : TfStep 2 (Phase.prices2 :: List.replicate 9 Phase.pending)
        ((Phase.prices2 :: List.replicate 9 Phase.pending).set 1 Phase.prices2) :=
      TfStep.start _ 1 (by decide) (by decide)
    have e2 : (Phase.prices2 :: List.replicate 9 Phase.pending).set 1 Phase.prices2 =
        fourCallsState := by decide
    refine Relation.ReflTransGen.head h1 ?_
    rw [e1]
    refine Relation.ReflTransGen.head h2 ?_
    rw [e2]
  · decide

/-- C9 amended: the per-batch `asyncio.Semaphore(K)` bounds the number of
in-flight per-symbol fetch orchestrations by K in every reachable state,
and a task that cannot acquire a permit blocks (some step is always
enabled while work remains — there is no failure transition); but the
bound on concurrent outbound API calls is 2·K, not K, because a timeframe
task issues its two endpoint-price requests concurrently under one
permit. -/
theorem claim_C9_semaphore_bound (K n : ℕ) (hK : 0 < K) (s : List Phase)
    (h : TfReach K (List.replicate n Phase.pending) s) :
    holders s ≤ K ∧ inflight s ≤ 2 * K ∧
    ((∃ (i : ℕ) (p : Phase), s[i]? = some p ∧ p ≠ Phase.done) →
      ∃ s', TfStep K s s') := by
  have hH : holders s ≤ K := tfReach_holders_le h
  refine ⟨hH, ?_, ?_⟩
  · calc inflight s ≤ 2 * holders s := inflight_le_two_mul_holders s
      _ ≤ 2 * K := by omega
  · rintro ⟨i, p, hi, hp⟩
    by_cases hperm : ∃ (j : ℕ) (q : Phase), s[j]? = some q ∧ holdsPermit q = true
    · obtain ⟨j, q, hj, hq⟩ := hperm
      cases q with
      | prices2 => exact ⟨_, TfStep.firstPriceDone s j hj⟩
      | prices1 => exact ⟨_, TfStep.secondPriceDone s j hj⟩
      | volume => exact ⟨_, TfStep.volumeDone s j hj⟩
      | pending => simp [holdsPermit] at hq
      | done => simp [holdsPermit] at hq
    · have h0 : holders s = 0 := by
        rw [holders, List.countP_eq_zero]
        intro a ha hpa
        obtain ⟨j, hj⟩ := List.mem_iff_getElem?.mp ha
        exact hperm ⟨j, a, hj, hpa⟩
      cases p with
      | pending => exact ⟨_, TfStep.start s i hi (by omega)⟩
      | done => exact absurd rfl hp
      | prices2 => exact absurd ⟨i, Phase.prices2, hi, rfl⟩ hperm
      | prices1 => exact absurd ⟨i, Phase.prices1, hi, rfl⟩ hperm
      | volume => exact absurd ⟨i, Phase.volume, hi, rfl⟩ hperm

/-- Witness for C9 (amended) at K = 2 over 3 symbols, at the initial
state. -/
theorem claim_C9_semaphore_bound_witness :
    holders (List.replicate 3 Phase.pending) ≤ 2 ∧
    inflight (List.replicate 3 Phase.pending) ≤ 2 * 2 ∧
    ((∃ (i : ℕ) (p : Phase),
        (List.replicate 3 Phase.pending)[i]? = some p ∧ p ≠ Phase.done) →
      ∃ s', TfStep 2 (List.replicate 3 Phase.pending) s') :=
  claim_C9_semaphore_bound 2 3 (by norm_num) _ Relation.ReflTransGen.refl

end TickerSorter
